import Mathlib

/-!
Verification of the istanbul-lib-report core: a shallow embedding of the
Node/Tree/Visitor traversal protocol of `lib/tree.js`, together with a
spec-modelled account of the `pkg` summarizer (whose source file
`lib/summarizer.js` is not part of this snapshot).

State threaded through visitor callbacks is modelled explicitly: a callback
takes the current state and returns the updated state together with an
optional error (a thrown JS exception).  A traversal step sequences through
`andThen`, which stops at the first error while keeping the state reached so
far (JS exceptions do not roll back mutations already performed on the shared
state object).
-/

namespace LibReport

/-- A concrete coverage-tree node: a summary flag, a label (the qualified
path segments) and an ordered list of children, mirroring the concrete node
shapes the summarizers build and `Node.prototype.visit` traverses. -/
inductive Node where
  | mk (summary : Bool) (label : List String) (children : List Node)

/-- Discriminator of the two node variants, `Node.prototype.isSummary`. -/
def Node.isSummary : Node → Bool
  | .mk b _ _ => b

/-- The ordered child sequence, `Node.prototype.getChildren`. -/
def Node.getChildren : Node → List Node
  | .mk _ _ cs => cs

/-- The node label (qualified name, as path segments). -/
def Node.label : Node → List String
  | .mk _ l _ => l

variable {ε σ : Type}

/-- A full visitor: all five callback slots present.  Each callback receives
the node and the current state and returns the updated state with an optional
thrown error, mirroring the five methods installed on `Visitor.prototype`. -/
structure Visitor (ε σ : Type) where
  onStart : Node → σ → σ × Option ε
  onSummary : Node → σ → σ × Option ε
  onSummaryEnd : Node → σ → σ × Option ε
  onDetail : Node → σ → σ × Option ε
  onEnd : Node → σ → σ × Option ε

/-- Sequencing of two traversal steps: if the first step threw, propagate its
error unchanged and skip the second step; otherwise run the second step on
the state the first one produced. -/
def andThen (r : σ × Option ε) (f : σ → σ × Option ε) : σ × Option ε :=
  match r with
  | (s, none) => f s
  | (s, some e) => (s, some e)

mutual

/-- `Node.prototype.visit` (tree.js lines 147-167): invoke `onSummary` for a
summary node and `onDetail` for a detail node, then visit every child in
order, then invoke `onSummaryEnd` for a summary node only. -/
def Node.visit (v : Visitor ε σ) : Node → σ → σ × Option ε
  | Node.mk b l cs, s =>
    andThen (if b then v.onSummary (Node.mk b l cs) s
             else v.onDetail (Node.mk b l cs) s) (fun s1 =>
      andThen (visitChildren v cs s1) (fun s2 =>
        if b then v.onSummaryEnd (Node.mk b l cs) s2 else (s2, none)))

/-- The `visitChildren` closure inside `Node.prototype.visit`: a `forEach`
over the child list, visiting each child left to right. -/
def visitChildren (v : Visitor ε σ) : List Node → σ → σ × Option ε
  | [], s => (s, none)
  | c :: cs, s => andThen (Node.visit v c s) (visitChildren v cs)

end

/-- A raw delegate object: a possibly-partial visitor, each of the five
callback slots optionally present.  This is the `delegate` argument of the
`Visitor` constructor (tree.js lines 26-28). -/
structure PartialVisitor (ε σ : Type) where
  onStart : Option (Node → σ → σ × Option ε) := none
  onSummary : Option (Node → σ → σ × Option ε) := none
  onSummaryEnd : Option (Node → σ → σ × Option ε) := none
  onDetail : Option (Node → σ → σ × Option ε) := none
  onEnd : Option (Node → σ → σ × Option ε) := none

/-- Method dispatch of a wrapped callback (tree.js lines 30-37): when the
delegate supplies the slot, call it; otherwise do nothing and throw
nothing. -/
def callOpt (slot : Option (Node → σ → σ × Option ε)) (n : Node) (s : σ) :
    σ × Option ε :=
  match slot with
  | some f => f n s
  | none => (s, none)

/-- The `Visitor` wrapper over a partial delegate: every missing slot becomes
a no-op (tree.js lines 26-37). -/
def Visitor.ofDelegate (d : PartialVisitor ε σ) : Visitor ε σ where
  onStart := callOpt d.onStart
  onSummary := callOpt d.onSummary
  onSummaryEnd := callOpt d.onSummaryEnd
  onDetail := callOpt d.onDetail
  onEnd := callOpt d.onEnd

/-- An element of the `visitors` argument of `CompositeVisitor`: either
already a full `Visitor` instance, or a raw delegate still to be wrapped
(the `instanceof Visitor` test, tree.js lines 43-48). -/
inductive VisitorElem (ε σ : Type) where
  | wrapped (v : Visitor ε σ)
  | raw (d : PartialVisitor ε σ)

/-- Wrap one element: a `Visitor` instance is kept as is, anything else is
wrapped in a fresh `Visitor` (tree.js lines 43-48; the same test also guards
`Tree.prototype.visit`, lines 198-200). -/
def wrapElem : VisitorElem ε σ → Visitor ε σ
  | .wrapped v => v
  | .raw d => Visitor.ofDelegate d

/-- The `visitors` argument of `CompositeVisitor`: either a bare element or
an array of elements (the `Array.isArray` test, tree.js lines 40-42). -/
inductive VisitorsArg (ε σ : Type) where
  | single (v : VisitorElem ε σ)
  | array (vs : List (VisitorElem ε σ))

/-- Normalization performed by the `CompositeVisitor` constructor: a bare
(non-array) argument becomes a one-element array (tree.js lines 40-42). -/
def normalizeVisitors : VisitorsArg ε σ → List (VisitorElem ε σ)
  | .single v => [v]
  | .array vs => vs

/-- The `forEach` body shared by the five composite callbacks (tree.js lines
53-60): invoke the callback selected by `call` on every member visitor in
order, on the same node, threading the shared state. -/
def callAll (call : Visitor ε σ → Node → σ → σ × Option ε)
    (vs : List (Visitor ε σ)) (n : Node) (s : σ) : σ × Option ε :=
  match vs with
  | [] => (s, none)
  | v :: rest => andThen (call v n s) (callAll call rest n)

/-- `CompositeVisitor` (tree.js lines 39-60): normalize the argument to an
array, wrap every element that is not already a `Visitor`, and fan each of
the five callbacks out to every member in registration order. -/
def CompositeVisitor (arg : VisitorsArg ε σ) : Visitor ε σ :=
  let visitors := (normalizeVisitors arg).map wrapElem
  { onStart := callAll (fun v => v.onStart) visitors
    onSummary := callAll (fun v => v.onSummary) visitors
    onSummaryEnd := callAll (fun v => v.onSummaryEnd) visitors
    onDetail := callAll (fun v => v.onDetail) visitors
    onEnd := callAll (fun v => v.onEnd) visitors }

/-- A concrete tree: just its root node (the abstract `getRoot` accessor is
modelled separately for the unimplemented-accessor claims). -/
structure Tree where
  root : Node

/-- `Tree.prototype.getRoot` for a concrete tree. -/
def Tree.getRoot (t : Tree) : Node := t.root

/-- `Tree.prototype.visit` (tree.js lines 197-204): wrap the argument unless
it is already a `Visitor`, call `onStart` on the root, run the depth-first
node traversal from the root, then call `onEnd` on the root. -/
def Tree.visit (t : Tree) (arg : VisitorElem ε σ) (s : σ) : σ × Option ε :=
  let v := wrapElem arg
  andThen (v.onStart t.getRoot s) (fun s1 =>
    andThen (Node.visit v t.getRoot s1) (fun s2 =>
      v.onEnd t.getRoot s2))

/-- The five callback kinds, used to record which callback a traversal
invoked. -/
inductive EKind where
  | startK
  | summaryK
  | detailK
  | summaryEndK
  | endK
  deriving DecidableEq

/-- One recorded callback invocation: which callback fired and on which
node. -/
structure Event where
  kind : EKind
  node : Node

/-- The canonical logging visitor: every callback appends the corresponding
event to the state (an event list) and never throws.  Used to observe the
exact callback sequence a traversal performs. -/
def logVisitor : Visitor Empty (List Event) where
  onStart := fun n l => (l ++ [⟨EKind.startK, n⟩], none)
  onSummary := fun n l => (l ++ [⟨EKind.summaryK, n⟩], none)
  onSummaryEnd := fun n l => (l ++ [⟨EKind.summaryEndK, n⟩], none)
  onDetail := fun n l => (l ++ [⟨EKind.detailK, n⟩], none)
  onEnd := fun n l => (l ++ [⟨EKind.endK, n⟩], none)

/-- The callback sequence `Node.visit` performs from a given node. -/
def nodeTrace (n : Node) : List Event :=
  (Node.visit logVisitor n []).1

/-- The callback sequence `Tree.visit` performs on a tree. -/
def treeTrace (t : Tree) : List Event :=
  (Tree.visit t (VisitorElem.wrapped logVisitor) []).1

/-- Replay one recorded event against an arbitrary visitor: invoke the
callback of the recorded kind on the recorded node. -/
def applyEvent (v : Visitor ε σ) (e : Event) (s : σ) : σ × Option ε :=
  match e.kind with
  | .startK => v.onStart e.node s
  | .summaryK => v.onSummary e.node s
  | .detailK => v.onDetail e.node s
  | .summaryEndK => v.onSummaryEnd e.node s
  | .endK => v.onEnd e.node s

/-- Replay a recorded event sequence in order, stopping at the first thrown
error. -/
def applyEvents (v : Visitor ε σ) : List Event → σ → σ × Option ε
  | [], s => (s, none)
  | e :: es, s => andThen (applyEvent v e s) (applyEvents v es)

mutual

/-- Structural characterization of the callback sequence of `Node.visit`:
the node's own pre-order callback, the traces of the children in order, and
the closing `onSummaryEnd` for summary nodes only. -/
def nodeTraceSpec : Node → List Event
  | Node.mk b l cs =>
    (if b then [⟨EKind.summaryK, Node.mk b l cs⟩]
     else [⟨EKind.detailK, Node.mk b l cs⟩])
      ++ childTraceSpec cs
      ++ (if b then [⟨EKind.summaryEndK, Node.mk b l cs⟩] else [])

/-- Concatenated traces of a child list, in order. -/
def childTraceSpec : List Node → List Event
  | [] => []
  | c :: cs => nodeTraceSpec c ++ childTraceSpec cs

end

theorem andThen_assoc (r : σ × Option ε) (f g : σ → σ × Option ε) :
    andThen (andThen r f) g = andThen r (fun s => andThen (f s) g) := by
  rcases r with ⟨s, e⟩
  cases e <;> simp [andThen]

theorem andThen_pure (r : σ × Option ε) :
    andThen r (fun s => (s, none)) = r := by
  rcases r with ⟨s, e⟩
  cases e <;> simp [andThen]

theorem applyEvents_nil (v : Visitor ε σ) :
    applyEvents v [] = fun s => (s, none) := rfl

theorem applyEvents_cons (v : Visitor ε σ) (e : Event) (es : List Event) :
    applyEvents v (e :: es) = fun s => andThen (applyEvent v e s) (applyEvents v es) := rfl

theorem applyEvents_append (v : Visitor ε σ) (es1 es2 : List Event) :
    applyEvents v (es1 ++ es2)
      = fun s => andThen (applyEvents v es1 s) (applyEvents v es2) := by
  induction es1 with
  | nil => funext s; simp [applyEvents, andThen]
  | cons e es ih =>
    funext s
    show andThen (applyEvent v e s) (applyEvents v (es ++ es2)) = _
    rw [ih, applyEvents_cons, andThen_assoc]

theorem applyEvents_one (v : Visitor ε σ) (e : Event) :
    applyEvents v [e] = applyEvent v e := by
  funext s
  show andThen (applyEvent v e s) (applyEvents v []) = _
  rw [applyEvents_nil, andThen_pure]

mutual

/-- Replay lemma: a traversal from a node performs exactly the callback
invocations listed by `nodeTraceSpec`, in that order. -/
theorem visit_replay (v : Visitor ε σ) (n : Node) (s : σ) :
    Node.visit v n s = applyEvents v (nodeTraceSpec n) s := by
  rcases n with ⟨b, l, cs⟩
  have hcs : visitChildren v cs = applyEvents v (childTraceSpec cs) :=
    funext (fun s0 => visitChildren_replay v cs s0)
  cases b <;>
    simp [Node.visit, nodeTraceSpec, applyEvents_append, applyEvents_one,
      applyEvents_cons, applyEvents_nil, hcs, applyEvent, andThen_assoc,
      andThen_pure]

/-- Replay lemma for a child list. -/
theorem visitChildren_replay (v : Visitor ε σ) (cs : List Node) (s : σ) :
    visitChildren v cs s = applyEvents v (childTraceSpec cs) s := by
  match cs with
  | [] => rw [visitChildren, childTraceSpec]; rfl
  | c :: rest =>
    have h : visitChildren v rest = applyEvents v (childTraceSpec rest) :=
      funext (fun s0 => visitChildren_replay v rest s0)
    rw [visitChildren, childTraceSpec, applyEvents_append,
      visit_replay v c s, h]

end

theorem applyEvent_log (e : Event) (l : List Event) :
    applyEvent logVisitor e l = (l ++ [e], none) := by
  rcases e with ⟨k, n⟩
  cases k <;> rfl

theorem applyEvents_log (es : List Event) (l : List Event) :
    applyEvents logVisitor es l = (l ++ es, none) := by
  induction es generalizing l with
  | nil => simp [applyEvents]
  | cons e es ih => simp [applyEvents, applyEvent_log, andThen, ih]

theorem visit_log (n : Node) (l : List Event) :
    Node.visit logVisitor n l = (l ++ nodeTraceSpec n, none) := by
  rw [visit_replay, applyEvents_log]

theorem nodeTrace_eq_spec (n : Node) : nodeTrace n = nodeTraceSpec n := by
  rw [nodeTrace, visit_log]
  rfl

theorem childTraceSpec_eq_flatten (cs : List Node) :
    childTraceSpec cs = (cs.map nodeTrace).flatten := by
  induction cs with
  | nil => rfl
  | cons c rest ih => simp [childTraceSpec, ih, nodeTrace_eq_spec]

theorem treeTrace_eq (t : Tree) :
    treeTrace t
      = ⟨EKind.startK, t.root⟩ ::
          (nodeTraceSpec t.root ++ [⟨EKind.endK, t.root⟩]) := by
  have h1 : treeTrace t
      = (andThen (Node.visit logVisitor t.root [⟨EKind.startK, t.root⟩])
          (fun s2 => logVisitor.onEnd t.root s2)).1 := rfl
  rw [h1, visit_log]
  simp [andThen, logVisitor]

theorem tree_visit_replay (v : Visitor ε σ) (t : Tree) (s : σ) :
    Tree.visit t (VisitorElem.wrapped v) s = applyEvents v (treeTrace t) s := by
  rw [treeTrace_eq, applyEvents_cons, applyEvents_append, applyEvents_one]
  show andThen (v.onStart t.root s)
      (fun s1 => andThen (Node.visit v t.root s1)
        (fun s2 => v.onEnd t.root s2)) = _
  have h : (fun s1 => andThen (Node.visit v t.root s1)
        (fun s2 => v.onEnd t.root s2))
      = fun s1 => andThen (applyEvents v (nodeTraceSpec t.root) s1)
          (applyEvent v ⟨EKind.endK, t.root⟩) := by
    funext s1
    rw [visit_replay]
    rfl
  rw [h]
  rfl

mutual

/-- Every event in a node trace is a summary/detail/summary-end callback,
never `onStart` or `onEnd`, and a summary-end event always records a summary
node. -/
theorem nodeTraceSpec_mem (n : Node) :
    ∀ e ∈ nodeTraceSpec n,
      e.kind ≠ EKind.startK ∧ e.kind ≠ EKind.endK ∧
        (e.kind = EKind.summaryEndK → e.node.isSummary = true) := by
  rcases n with ⟨b, l, cs⟩
  intro e he
  rw [nodeTraceSpec] at he
  cases b with
  | false =>
    simp at he
    rcases he with rfl | h
    · simp [Node.isSummary]
    · exact childTraceSpec_mem cs e h
  | true =>
    simp at he
    rcases he with rfl | h | rfl
    · simp
    · exact childTraceSpec_mem cs e h
    · simp [Node.isSummary]

/-- Child-list version of `nodeTraceSpec_mem`. -/
theorem childTraceSpec_mem (cs : List Node) :
    ∀ e ∈ childTraceSpec cs,
      e.kind ≠ EKind.startK ∧ e.kind ≠ EKind.endK ∧
        (e.kind = EKind.summaryEndK → e.node.isSummary = true) := by
  match cs with
  | [] => intro e he; simp [childTraceSpec] at he
  | c :: rest =>
    intro e he
    rw [childTraceSpec] at he
    rcases List.mem_append.mp he with h | h
    · exact nodeTraceSpec_mem c e h
    · exact childTraceSpec_mem rest e h

end

/-- A visitor none of whose callbacks ever throws. -/
def NoThrow (v : Visitor ε σ) : Prop :=
  (∀ n s, (v.onStart n s).2 = none) ∧ (∀ n s, (v.onSummary n s).2 = none) ∧
    (∀ n s, (v.onSummaryEnd n s).2 = none) ∧
    (∀ n s, (v.onDetail n s).2 = none) ∧ (∀ n s, (v.onEnd n s).2 = none)

theorem applyEvent_noThrow (v : Visitor ε σ) (h : NoThrow v) (e : Event)
    (s : σ) : (applyEvent v e s).2 = none := by
  rcases h with ⟨h1, h2, h3, h4, h5⟩
  rcases e with ⟨k, n⟩
  cases k with
  | startK => exact h1 n s
  | summaryK => exact h2 n s
  | detailK => exact h4 n s
  | summaryEndK => exact h3 n s
  | endK => exact h5 n s

theorem applyEvents_noThrow (v : Visitor ε σ) (h : NoThrow v)
    (es : List Event) (s : σ) : (applyEvents v es s).2 = none := by
  induction es generalizing s with
  | nil => rfl
  | cons e es ih =>
    show (andThen (applyEvent v e s) (applyEvents v es)).2 = none
    have hk := applyEvent_noThrow v h e s
    rcases hr : applyEvent v e s with ⟨s1, err⟩
    rw [hr] at hk
    cases err with
    | none => simpa [andThen, hr] using ih s1
    | some e0 => simp at hk

/-- A concrete Node subtype: each abstract accessor optionally overridden.
A `none` slot models a subtype that omitted the override, so that method
lookup lands on the throwing stub of `Node.prototype`.  An override of a
zero-argument accessor is modelled by the value it returns. -/
structure NodeSubtype where
  getQualifiedName : Option String := none
  getRelativeName : Option String := none
  getParent : Option (Option Nat) := none
  getChildren : Option (List Nat) := none
  isSummary : Option Bool := none
  getCoverageSummary : Option (Bool → Nat) := none
  getFileCoverage : Option (Option Nat) := none

namespace NodeProto

/-- `Node.prototype.getQualifiedName` dispatch (tree.js lines 73-75):
the override if present, else the throwing stub. -/
def getQualifiedName (self : NodeSubtype) : Except String String :=
  match self.getQualifiedName with
  | some v => Except.ok v
  | none => Except.error "getQualifiedName must be overridden"

/-- `Node.prototype.getRelativeName` dispatch (tree.js lines 81-83). -/
def getRelativeName (self : NodeSubtype) : Except String String :=
  match self.getRelativeName with
  | some v => Except.ok v
  | none => Except.error "getRelativeName must be overridden"

/-- `Node.prototype.getParent` dispatch (tree.js lines 97-99). -/
def getParent (self : NodeSubtype) : Except String (Option Nat) :=
  match self.getParent with
  | some v => Except.ok v
  | none => Except.error "getParent must be overridden"

/-- `Node.prototype.getChildren` dispatch (tree.js lines 105-107). -/
def getChildren (self : NodeSubtype) : Except String (List Nat) :=
  match self.getChildren with
  | some v => Except.ok v
  | none => Except.error "getChildren must be overridden"

/-- `Node.prototype.isSummary` dispatch (tree.js lines 114-116). -/
def isSummary (self : NodeSubtype) : Except String Bool :=
  match self.isSummary with
  | some v => Except.ok v
  | none => Except.error "isSummary must be overridden"

/-- `Node.prototype.getCoverageSummary` dispatch (tree.js lines 127-129). -/
def getCoverageSummary (self : NodeSubtype) (filesOnly : Bool) :
    Except String Nat :=
  match self.getCoverageSummary with
  | some f => Except.ok (f filesOnly)
  | none => Except.error "getCoverageSummary must be overridden"

/-- `Node.prototype.getFileCoverage` dispatch (tree.js lines 137-139). -/
def getFileCoverage (self : NodeSubtype) : Except String (Option Nat) :=
  match self.getFileCoverage with
  | some v => Except.ok v
  | none => Except.error "getFileCoverage must be overridden"

/-- `Node.prototype.isRoot` (tree.js lines 89-91): `return !this.getParent()`
— derived from the parent accessor at each call, truthy parent giving
`false` and an absent parent giving `true`; a thrown `getParent` error
propagates. -/
def isRoot (self : NodeSubtype) : Except String Bool :=
  match getParent self with
  | Except.ok p => Except.ok p.isNone
  | Except.error e => Except.error e

end NodeProto

/-- A concrete Tree subtype: `getRoot` optionally overridden. -/
structure TreeSubtype where
  getRoot : Option Nat := none

/-- `Tree.prototype.getRoot` dispatch (tree.js lines 187-189). -/
def TreeProto.getRoot (self : TreeSubtype) : Except String Nat :=
  match self.getRoot with
  | some v => Except.ok v
  | none => Except.error "getRoot must be overridden"

namespace Summarizer

/-- One aggregate metric of a coverage summary: total, covered and skipped
counts (istanbul-lib-coverage's summary shape; the derived `pct` is not
needed here). -/
structure CovMetric where
  total : Nat
  covered : Nat
  skipped : Nat
  deriving DecidableEq

/-- Merging two metrics adds the counts componentwise. -/
def CovMetric.merge (a b : CovMetric) : CovMetric :=
  ⟨a.total + b.total, a.covered + b.covered, a.skipped + b.skipped⟩

/-- A coverage summary: the four aggregate metrics. -/
structure CoverageSummary where
  statements : CovMetric
  branches : CovMetric
  functions : CovMetric
  lines : CovMetric
  deriving DecidableEq

/-- The empty/zero summary. -/
def CoverageSummary.empty : CoverageSummary :=
  ⟨⟨0, 0, 0⟩, ⟨0, 0, 0⟩, ⟨0, 0, 0⟩, ⟨0, 0, 0⟩⟩

/-- Merging two summaries merges each metric. -/
def CoverageSummary.merge (a b : CoverageSummary) : CoverageSummary :=
  ⟨a.statements.merge b.statements, a.branches.merge b.branches,
    a.functions.merge b.functions, a.lines.merge b.lines⟩

/-- Merge of a list of summaries, left to right from the empty summary. -/
def mergeAll (l : List CoverageSummary) : CoverageSummary :=
  l.foldl CoverageSummary.merge CoverageSummary.empty

/-- A coverage-data mapping: file paths (as segment lists) with the file's
coverage record, in input iteration order. -/
abbrev CoverageData : Type := List (List String × CoverageSummary)

/-- The containing directory of a file path: all segments but the last. -/
def dirOf (path : List String) : List String := path.dropLast

/-- Append a directory to the group list unless already present, keeping
first-occurrence order. -/
def insertDir (acc : List (List String)) (d : List String) :
    List (List String) :=
  if d ∈ acc then acc else acc ++ [d]

/-- The unique containing directories of the input files, in order of first
appearance. -/
def uniqueDirs (data : CoverageData) : List (List String) :=
  (data.map (fun kv => dirOf kv.1)).foldl insertDir []

/-- A package node of the `pkg` tree: one containing directory together with
the files directly inside it. -/
structure PkgNode where
  dir : List String
  files : List (List String × CoverageSummary)
  deriving DecidableEq

/-- The root of a `pkg` tree: its flat list of package children. -/
structure PkgRoot where
  packages : List PkgNode

/-- Modelled from the spec: `createPackageSummary` (lib/summarizer.js, not
present under src/).  Per spec section 4.2, the `pkg` summarizer produces
one summary ("package") node per unique containing directory of any file,
every package a direct flat child of the root, each package's children
being only the detail nodes for the files directly inside that directory. -/
def createPackageSummary (data : CoverageData) : PkgRoot :=
  ⟨(uniqueDirs data).map (fun d =>
    ⟨d, data.filter (fun kv => dirOf kv.1 == d)⟩)⟩

/-- Modelled from the spec: a package node's aggregate coverage summary is
the merge of its own (direct) files' summaries only. -/
def PkgNode.getCoverageSummary (p : PkgNode) : CoverageSummary :=
  mergeAll (p.files.map (fun kv => kv.2))

/-- The detail node wrapping one file record. -/
def fileToNode (kv : List String × CoverageSummary) : Node :=
  Node.mk false kv.1 []

/-- A package node as a summary `Node` whose children are its file detail
nodes. -/
def pkgNodeToNode (p : PkgNode) : Node :=
  Node.mk true p.dir (p.files.map fileToNode)

/-- The `pkg` tree as a `Node` tree: a summary root whose children are the
package nodes. -/
def pkgRootToNode (r : PkgRoot) : Node :=
  Node.mk true [] (r.packages.map pkgNodeToNode)

theorem mem_insertDir (acc : List (List String)) (d x : List String) :
    x ∈ insertDir acc d ↔ x ∈ acc ∨ x = d := by
  rw [insertDir]
  by_cases h : d ∈ acc
  · simp only [if_pos h, List.mem_append]
    constructor
    · exact fun hx => Or.inl hx
    · rintro (hx | rfl)
      · exact hx
      · exact h
  · simp [if_neg h]

theorem nodup_insertDir (acc : List (List String)) (d : List String)
    (h : acc.Nodup) : (insertDir acc d).Nodup := by
  rw [insertDir]
  by_cases hd : d ∈ acc
  · simpa [if_pos hd] using h
  · rw [if_neg hd]
    refine List.Nodup.append h (List.nodup_singleton d) ?_
    simpa [List.disjoint_singleton] using hd

theorem nodup_foldl_insertDir (ds : List (List String))
    (acc : List (List String)) (h : acc.Nodup) :
    (ds.foldl insertDir acc).Nodup := by
  induction ds generalizing acc with
  | nil => exact h
  | cons d ds ih => exact ih (insertDir acc d) (nodup_insertDir acc d h)

theorem mem_foldl_insertDir (ds : List (List String))
    (acc : List (List String)) (x : List String) :
    x ∈ ds.foldl insertDir acc ↔ x ∈ acc ∨ x ∈ ds := by
  induction ds generalizing acc with
  | nil => simp
  | cons d ds ih =>
    show x ∈ ds.foldl insertDir (insertDir acc d) ↔ _
    rw [ih, mem_insertDir]
    simp [or_assoc]

theorem uniqueDirs_nodup (data : CoverageData) : (uniqueDirs data).Nodup :=
  nodup_foldl_insertDir _ _ List.nodup_nil

theorem mem_uniqueDirs (data : CoverageData) (d : List String) :
    d ∈ uniqueDirs data ↔ ∃ kv ∈ data, dirOf kv.1 = d := by
  rw [uniqueDirs, mem_foldl_insertDir]
  constructor
  · rintro (h | h)
    · simp at h
    · rcases List.mem_map.mp h with ⟨kv, hkv, rfl⟩
      exact ⟨kv, hkv, rfl⟩
  · rintro ⟨kv, hkv, rfl⟩
    exact Or.inr (List.mem_map.mpr ⟨kv, hkv, rfl⟩)

end Summarizer

/-- C1: `Node.visit` first invokes `onSummary(node, state)` if the node is a
summary node and `onDetail(node, state)` otherwise, then visits each child
in child-sequence order by the same procedure, and, only if the node is a
summary node, invokes `onSummaryEnd(node, state)` strictly after all
descendants have been fully visited; `onSummaryEnd` never fires for a detail
node.  Stated as: the callback sequence of `Node.visit` is the node's own
pre-order callback, followed by the complete traces of the children in
order, followed (for summary nodes only) by the `onSummaryEnd` callback; a
summary-end event always records a summary node; and running `Node.visit`
with any visitor performs exactly the callback invocations of that
sequence. -/
theorem node_visit_order (n : Node) :
    nodeTrace n
        = (if n.isSummary then [⟨EKind.summaryK, n⟩] else [⟨EKind.detailK, n⟩])
            ++ (n.getChildren.map nodeTrace).flatten
            ++ (if n.isSummary then [⟨EKind.summaryEndK, n⟩] else [])
      ∧ (∀ e ∈ nodeTrace n, e.kind = EKind.summaryEndK →
          e.node.isSummary = true)
      ∧ ∀ {ε σ : Type} (v : Visitor ε σ) (s : σ),
          Node.visit v n s = applyEvents v (nodeTrace n) s := by
  refine ⟨?_, ?_, ?_⟩
  · rw [nodeTrace_eq_spec]
    rcases n with ⟨b, l, cs⟩
    rw [nodeTraceSpec, childTraceSpec_eq_flatten]
    rfl
  · intro e he
    rw [nodeTrace_eq_spec] at he
    exact (nodeTraceSpec_mem n e he).2.2
  · intro ε σ v s
    rw [nodeTrace_eq_spec]
    exact visit_replay v n s

theorem node_visit_order_witness :
    (Node.mk true ["a"] [Node.mk false ["a", "f"] []]).isSummary = true :=
  (node_visit_order (Node.mk true ["a"] [Node.mk false ["a", "f"] []])).2.1
    ⟨EKind.summaryEndK, Node.mk true ["a"] [Node.mk false ["a", "f"] []]⟩
    (by simp [nodeTrace_eq_spec, nodeTraceSpec, childTraceSpec]) rfl

/-- C2: `Tree.visit` invokes `onStart(root, state)` exactly once before the
traversal, then performs the full depth-first traversal from the root, then
invokes `onEnd(root, state)` exactly once; `onStart`/`onEnd` never occur
inside any node traversal, and running `Tree.visit` with any visitor
performs exactly the callback invocations of the tree trace. -/
theorem tree_visit_order (t : Tree) :
    treeTrace t
        = ⟨EKind.startK, t.getRoot⟩ ::
            (nodeTrace t.getRoot ++ [⟨EKind.endK, t.getRoot⟩])
      ∧ ((treeTrace t).countP (fun e => e.kind == EKind.startK) = 1
          ∧ (treeTrace t).countP (fun e => e.kind == EKind.endK) = 1)
      ∧ (∀ (n : Node), ∀ e ∈ nodeTrace n,
          e.kind ≠ EKind.startK ∧ e.kind ≠ EKind.endK)
      ∧ ∀ {ε σ : Type} (v : Visitor ε σ) (s : σ),
          Tree.visit t (VisitorElem.wrapped v) s
            = applyEvents v (treeTrace t) s := by
  have hmem : ∀ (n : Node), ∀ e ∈ nodeTrace n,
      e.kind ≠ EKind.startK ∧ e.kind ≠ EKind.endK := by
    intro n e he
    rw [nodeTrace_eq_spec] at he
    exact ⟨(nodeTraceSpec_mem n e he).1, (nodeTraceSpec_mem n e he).2.1⟩
  refine ⟨?_, ⟨?_, ?_⟩, hmem, ?_⟩
  · rw [treeTrace_eq, nodeTrace_eq_spec]
    rfl
  · rw [treeTrace_eq]
    simp only [List.countP_cons, List.countP_append]
    have h0 : (nodeTraceSpec t.root).countP
        (fun e => e.kind == EKind.startK) = 0 := by
      rw [List.countP_eq_zero]
      intro e he
      simpa [beq_eq_false_iff_ne] using (nodeTraceSpec_mem t.root e he).1
    simp only [h0, List.countP_nil]
    rfl
  · rw [treeTrace_eq]
    simp only [List.countP_cons, List.countP_append]
    have h0 : (nodeTraceSpec t.root).countP
        (fun e => e.kind == EKind.endK) = 0 := by
      rw [List.countP_eq_zero]
      intro e he
      simpa [beq_eq_false_iff_ne] using (nodeTraceSpec_mem t.root e he).2.1
    simp only [h0, List.countP_nil]
    rfl
  · intro ε σ v s
    exact tree_visit_replay v t s

theorem tree_visit_order_witness :
    (⟨EKind.detailK, Node.mk false ["x"] []⟩ : Event).kind ≠ EKind.startK :=
  ((tree_visit_order ⟨Node.mk true [] []⟩).2.2.1 (Node.mk false ["x"] [])
    ⟨EKind.detailK, Node.mk false ["x"] []⟩
    (by simp [nodeTrace_eq_spec, nodeTraceSpec, childTraceSpec])).1

/-- C6: any error thrown by a delegate callback during `Tree.visit`
propagates unchanged to the caller and aborts the traversal: if the
callbacks succeed up to some point of the callback sequence and the next
callback throws `err`, the whole visit returns exactly that error, the
remaining callbacks never run, and the state reached before the failure is
kept (nothing is rolled back). -/
theorem visitor_error_propagates :
    ∀ {ε σ : Type} (v : Visitor ε σ) (t : Tree) (s : σ)
      (es1 es2 : List Event) (ev : Event) (s1 s2 : σ) (err : ε),
      treeTrace t = es1 ++ ev :: es2 →
      applyEvents v es1 s = (s1, none) →
      applyEvent v ev s1 = (s2, some err) →
      Tree.visit t (VisitorElem.wrapped v) s = (s2, some err) := by
  intro ε σ v t s es1 es2 ev s1 s2 err htr h1 h2
  rw [tree_visit_replay, htr, applyEvents_append]
  show andThen (applyEvents v es1 s) (applyEvents v (ev :: es2)) = _
  rw [h1]
  show applyEvents v (ev :: es2) s1 = _
  rw [applyEvents_cons]
  show andThen (applyEvent v ev s1) (applyEvents v es2) = _
  rw [h2]
  rfl

theorem visitor_error_propagates_witness :
    Tree.visit (⟨Node.mk true [] []⟩ : Tree)
        (VisitorElem.wrapped
          { onStart := fun _ s => (s + 1, none)
            onSummary := fun _ s => (s + 2, some ())
            onSummaryEnd := fun _ s => (s + 4, none)
            onDetail := fun _ s => (s + 8, none)
            onEnd := fun _ s => (s + 16, none) })
        (0 : Nat)
      = (3, some ()) :=
  visitor_error_propagates _ _ 0 [⟨EKind.startK, Node.mk true [] []⟩]
    [⟨EKind.summaryEndK, Node.mk true [] []⟩, ⟨EKind.endK, Node.mk true [] []⟩]
    ⟨EKind.summaryK, Node.mk true [] []⟩ 1 3 ()
    (by rw [treeTrace_eq]
        simp [nodeTraceSpec, childTraceSpec, Tree.getRoot])
    rfl rfl

/-- C7: visiting the same tree twice with the same stateless visitor
produces identical callback sequences both times: running the logging
observation a second time, starting from the log the first run produced,
appends exactly the same callback sequence again. -/
theorem visit_idempotent (t : Tree) :
    (Tree.visit t (VisitorElem.wrapped logVisitor)
        ((Tree.visit t (VisitorElem.wrapped logVisitor) ([] : List Event)).1)).1
      = treeTrace t ++ treeTrace t := by
  rw [tree_visit_replay, tree_visit_replay, applyEvents_log, applyEvents_log]
  simp

/-- C10: `Node.visit` traverses the child sequence unconditionally,
regardless of the node variant: for a detail node with a non-empty child
list, `onDetail` fires first and then every child is visited in order by
the full procedure (each child contributing its own non-empty trace). -/
theorem detail_children_traversed (l : List String) (cs : List Node) :
    cs ≠ [] →
      nodeTrace (Node.mk false l cs)
          = ⟨EKind.detailK, Node.mk false l cs⟩ :: (cs.map nodeTrace).flatten
        ∧ ∀ c ∈ cs, nodeTrace c ≠ [] := by
  intro _
  constructor
  · rw [nodeTrace_eq_spec, nodeTraceSpec, childTraceSpec_eq_flatten]
    simp
  · intro c _
    rw [nodeTrace_eq_spec]
    rcases c with ⟨b, l0, cs0⟩
    rw [nodeTraceSpec]
    cases b <;> simp

theorem detail_children_traversed_witness :
    nodeTrace (Node.mk false ["d"] [Node.mk false ["d", "f"] []])
      = ⟨EKind.detailK, Node.mk false ["d"] [Node.mk false ["d", "f"] []]⟩ ::
          ([Node.mk false ["d", "f"] []].map nodeTrace).flatten :=
  (detail_children_traversed ["d"] [Node.mk false ["d", "f"] []]
    (by simp)).1

/-- C3: `CompositeVisitor` normalizes a bare (non-array) argument to a
one-element sequence, wraps every element that is not already a full
`Visitor` (keeping full visitors as they are), fans each of the five
callbacks out to every member in registration order on the same node with
the threaded shared state, and in particular for two members the first
member's `onDetail` runs on `(n, s)` and only then the second member's
`onDetail` on the same node. -/
theorem composite_visitor_order :
    (∀ {ε σ : Type} (ve : VisitorElem ε σ),
        normalizeVisitors (VisitorsArg.single ve) = [ve])
      ∧ (∀ {ε σ : Type} (d : PartialVisitor ε σ),
          wrapElem (VisitorElem.raw d) = Visitor.ofDelegate d)
      ∧ (∀ {ε σ : Type} (v : Visitor ε σ),
          wrapElem (VisitorElem.wrapped v) = v)
      ∧ (∀ {ε σ : Type} (arg : VisitorsArg ε σ) (n : Node) (s : σ),
          (CompositeVisitor arg).onStart n s
              = callAll (fun v => v.onStart)
                  ((normalizeVisitors arg).map wrapElem) n s
            ∧ (CompositeVisitor arg).onSummary n s
              = callAll (fun v => v.onSummary)
                  ((normalizeVisitors arg).map wrapElem) n s
            ∧ (CompositeVisitor arg).onSummaryEnd n s
              = callAll (fun v => v.onSummaryEnd)
                  ((normalizeVisitors arg).map wrapElem) n s
            ∧ (CompositeVisitor arg).onDetail n s
              = callAll (fun v => v.onDetail)
                  ((normalizeVisitors arg).map wrapElem) n s
            ∧ (CompositeVisitor arg).onEnd n s
              = callAll (fun v => v.onEnd)
                  ((normalizeVisitors arg).map wrapElem) n s)
      ∧ ∀ {ε σ : Type} (v1 v2 : Visitor ε σ) (n : Node) (s : σ),
          (CompositeVisitor (VisitorsArg.array
              [VisitorElem.wrapped v1, VisitorElem.wrapped v2])).onDetail n s
            = andThen (v1.onDetail n s) (fun s1 => v2.onDetail n s1) := by
  refine ⟨fun _ => rfl, fun _ => rfl, fun _ => rfl,
    fun _ _ _ => ⟨rfl, rfl, rfl, rfl, rfl⟩, ?_⟩
  intro ε σ v1 v2 n s
  have h0 : callAll (fun v => Visitor.onDetail v) ([] : List (Visitor ε σ)) n
      = fun s2 => (s2, none) := rfl
  have h1 : callAll (fun v => Visitor.onDetail v) [v2] n
      = fun s1 => v2.onDetail n s1 := by
    funext s1
    show andThen (v2.onDetail n s1)
      (callAll (fun v => Visitor.onDetail v) [] n) = _
    rw [h0, andThen_pure]
  show andThen (v1.onDetail n s)
    (callAll (fun v => Visitor.onDetail v) [v2] n) = _
  rw [h1]

/-- C4: every callback absent from a partial visitor behaves as a no-op
after wrapping — it leaves the state unchanged and throws nothing — and a
visitor implementing only a non-throwing `onSummaryEnd` never throws during
a full `Tree.visit` traversal despite the other four callbacks being
absent. -/
theorem partial_visitor_safe :
    (∀ {ε σ : Type} (d : PartialVisitor ε σ) (n : Node) (s : σ),
        (d.onStart = none → (Visitor.ofDelegate d).onStart n s = (s, none))
          ∧ (d.onSummary = none →
              (Visitor.ofDelegate d).onSummary n s = (s, none))
          ∧ (d.onSummaryEnd = none →
              (Visitor.ofDelegate d).onSummaryEnd n s = (s, none))
          ∧ (d.onDetail = none →
              (Visitor.ofDelegate d).onDetail n s = (s, none))
          ∧ (d.onEnd = none → (Visitor.ofDelegate d).onEnd n s = (s, none)))
      ∧ ∀ {ε σ : Type} (f : Node → σ → σ × Option ε) (t : Tree) (s : σ),
          (∀ n s0, (f n s0).2 = none) →
          (Tree.visit t
            (VisitorElem.raw
              { onStart := none, onSummary := none, onSummaryEnd := some f,
                onDetail := none, onEnd := none }) s).2 = none := by
  constructor
  · intro ε σ d n s
    refine ⟨?_, ?_, ?_, ?_, ?_⟩ <;>
      (intro h; show callOpt _ n s = (s, none); rw [h]; rfl)
  · intro ε σ f t s hf
    have hv : Tree.visit t
        (VisitorElem.raw
          { onStart := none, onSummary := none, onSummaryEnd := some f,
            onDetail := none, onEnd := none }) s
        = Tree.visit t
          (VisitorElem.wrapped (Visitor.ofDelegate
            { onStart := none, onSummary := none, onSummaryEnd := some f,
              onDetail := none, onEnd := none })) s := rfl
    rw [hv, tree_visit_replay]
    apply applyEvents_noThrow
    refine ⟨fun n s0 => rfl, fun n s0 => rfl, fun n s0 => ?_,
      fun n s0 => rfl, fun n s0 => rfl⟩
    show (callOpt (some f) n s0).2 = none
    exact hf n s0

theorem partial_visitor_safe_witness :
    (Tree.visit (⟨Node.mk true [] [Node.mk false ["f"] []]⟩ : Tree)
        (VisitorElem.raw
          { onStart := none, onSummary := none,
            onSummaryEnd := some (fun _ s => (s + 1, none)),
            onDetail := none, onEnd := none })
        (0 : Nat)).2 = (none : Option Unit) :=
  partial_visitor_safe.2 (fun _ s => (s + 1, none))
    ⟨Node.mk true [] [Node.mk false ["f"] []]⟩ 0 (fun _ _ => rfl)

/-- C8: every abstract Node accessor and `Tree.getRoot`, invoked on a
concrete subtype that omits the override, fails with the corresponding
"must be overridden" error rather than returning a value. -/
theorem abstract_accessors_unimplemented :
    (∀ impl : NodeSubtype,
        NodeProto.getQualifiedName { impl with getQualifiedName := none }
          = Except.error "getQualifiedName must be overridden")
      ∧ (∀ impl : NodeSubtype,
          NodeProto.getRelativeName { impl with getRelativeName := none }
            = Except.error "getRelativeName must be overridden")
      ∧ (∀ impl : NodeSubtype,
          NodeProto.getParent { impl with getParent := none }
            = Except.error "getParent must be overridden")
      ∧ (∀ impl : NodeSubtype,
          NodeProto.getChildren { impl with getChildren := none }
            = Except.error "getChildren must be overridden")
      ∧ (∀ impl : NodeSubtype,
          NodeProto.isSummary { impl with isSummary := none }
            = Except.error "isSummary must be overridden")
      ∧ (∀ (impl : NodeSubtype) (filesOnly : Bool),
          NodeProto.getCoverageSummary { impl with getCoverageSummary := none }
              filesOnly
            = Except.error "getCoverageSummary must be overridden")
      ∧ (∀ impl : NodeSubtype,
          NodeProto.getFileCoverage { impl with getFileCoverage := none }
            = Except.error "getFileCoverage must be overridden")
      ∧ ∀ impl : TreeSubtype,
          TreeProto.getRoot { impl with getRoot := none }
            = Except.error "getRoot must be overridden" :=
  ⟨fun _ => rfl, fun _ => rfl, fun _ => rfl, fun _ => rfl, fun _ => rfl,
    fun _ _ => rfl, fun _ => rfl, fun _ => rfl⟩

/-- C9: `isRoot()` returns true if and only if `getParent()` yields no
node; it is derived from the parent accessor at every call (it is exactly
the negation of the parent lookup, and propagates a `getParent` failure)
and is never independently stored. -/
theorem isRoot_derived :
    (∀ (impl : NodeSubtype) (p : Option Nat),
        NodeProto.getParent impl = Except.ok p →
          (NodeProto.isRoot impl = Except.ok true ↔ p = none))
      ∧ (∀ (impl : NodeSubtype) (e : String),
          NodeProto.getParent impl = Except.error e →
            NodeProto.isRoot impl = Except.error e)
      ∧ ∀ impl : NodeSubtype,
          NodeProto.isRoot impl
            = (NodeProto.getParent impl).map (fun p => p.isNone) := by
  refine ⟨?_, ?_, ?_⟩
  · intro impl p h
    rw [NodeProto.isRoot, h]
    cases p <;> simp
  · intro impl e h
    rw [NodeProto.isRoot, h]
  · intro impl
    rw [NodeProto.isRoot]
    cases h : NodeProto.getParent impl <;> simp [Except.map]

theorem isRoot_derived_witness :
    NodeProto.isRoot { getParent := some none } = Except.ok true :=
  (isRoot_derived.1 { getParent := some none } none rfl).mpr rfl

namespace Summarizer

/-- C5: the tree produced by the `pkg` summarizer has exactly two levels
below the root: every child of the root is a summary ("package") node, one
per unique containing directory of any input file, and every grandchild is
a childless detail node; a package's children are exactly the files
directly inside its directory (files in deeper subdirectories are
excluded); and a package node's coverage summary equals the merge of only
its direct detail children. -/
theorem pkg_summarizer_shape (data : CoverageData) :
    ((pkgRootToNode (createPackageSummary data)).isSummary = true
        ∧ ∀ c ∈ (pkgRootToNode (createPackageSummary data)).getChildren,
            c.isSummary = true
              ∧ ∀ g ∈ c.getChildren, g.isSummary = false ∧ g.getChildren = [])
      ∧ ((createPackageSummary data).packages.map PkgNode.dir = uniqueDirs data
          ∧ (uniqueDirs data).Nodup
          ∧ ∀ d, d ∈ uniqueDirs data ↔ ∃ kv ∈ data, dirOf kv.1 = d)
      ∧ (∀ p ∈ (createPackageSummary data).packages,
            p.files = data.filter (fun kv => dirOf kv.1 == p.dir)
              ∧ (∀ kv ∈ data, dirOf kv.1 ≠ p.dir → kv ∉ p.files)
              ∧ ∀ kv ∈ p.files, kv ∈ data ∧ dirOf kv.1 = p.dir)
      ∧ ∀ p ∈ (createPackageSummary data).packages,
          PkgNode.getCoverageSummary p
            = mergeAll ((data.filter (fun kv => dirOf kv.1 == p.dir)).map
                (fun kv => kv.2)) := by
  refine ⟨⟨rfl, ?_⟩, ⟨?_, uniqueDirs_nodup data, mem_uniqueDirs data⟩, ?_, ?_⟩
  · intro c hc
    rcases List.mem_map.mp hc with ⟨p, _, rfl⟩
    refine ⟨rfl, ?_⟩
    intro g hg
    rcases List.mem_map.mp hg with ⟨kv, _, rfl⟩
    exact ⟨rfl, rfl⟩
  · rw [createPackageSummary]
    rw [List.map_map]
    exact List.map_id _
  · intro p hp
    rcases List.mem_map.mp hp with ⟨d, _, rfl⟩
    refine ⟨rfl, ?_, ?_⟩
    · intro kv _ hne hmem
      rcases List.mem_filter.mp hmem with ⟨_, hd⟩
      exact hne (by simpa using hd)
    · intro kv hkv
      rcases List.mem_filter.mp hkv with ⟨h1, h2⟩
      exact ⟨h1, by simpa using h2⟩
  · intro p hp
    rcases List.mem_map.mp hp with ⟨d, _, rfl⟩
    rfl

theorem pkg_summarizer_shape_witness :
    PkgNode.getCoverageSummary
        ⟨["a"], [(["a", "f"], CoverageSummary.empty)]⟩
      = mergeAll ((([(["a", "f"], CoverageSummary.empty)] : CoverageData).filter
          (fun kv => dirOf kv.1 == (["a"] : List String))).map
            (fun kv => kv.2)) :=
  (pkg_summarizer_shape [(["a", "f"], CoverageSummary.empty)]).2.2.2
    ⟨["a"], [(["a", "f"], CoverageSummary.empty)]⟩ (by decide)

end Summarizer

end LibReport
